import Mathlib

/-!
Verification of the ChainForgeLedger core against its specification.

Shallow embedding of the Python sources:
* numbers (Python floats/ints) are modelled as `ℚ` / `ℤ` / `ℕ`;
* `sha256_hash` is modelled as an injective symbolic hash (an inductive
  constructor), justified by collision resistance and the fixed 64-hex
  width of digests (so concatenation of two digests is unambiguous);
* Python dicts are association lists with first-occurrence lookup,
  in-place overwrite of an existing key, and append of a new key;
* Python exceptions are modelled with `Option`/result values;
* mutable objects shared between containers (account records, checkpoint
  records) are modelled with an explicit reference heap, so that the
  aliasing behaviour of `dict(...)` shallow copies is preserved.
-/

/-! ## Generic dictionary operations (Python `dict` over a key type) -/

/-- First-occurrence lookup, `d[k]` / `d.get(k)`. -/
def dictGet {α β : Type} [DecidableEq α] (d : List (α × β)) (k : α) : Option β :=
  match d with
  | [] => none
  | (a, b) :: t => if a = k then some b else dictGet t k

/-- Python `k in d`. -/
def dictContains {α β : Type} [DecidableEq α] (d : List (α × β)) (k : α) : Bool :=
  match d with
  | [] => false
  | (a, _) :: t => if a = k then true else dictContains t k

/-- Python `d[k] = v`: overwrite the entry in place if the key is present,
append it otherwise (insertion-ordered dict semantics). -/
def dictSet {α β : Type} [DecidableEq α] (d : List (α × β)) (k : α) (v : β) :
    List (α × β) :=
  match d with
  | [] => [(k, v)]
  | (a, b) :: t => if a = k then (k, v) :: t else (a, b) :: dictSet t k v

theorem dictGet_dictSet_self {α β : Type} [DecidableEq α]
    (d : List (α × β)) (k : α) (v : β) : dictGet (dictSet d k v) k = some v := by
  induction d with
  | nil => simp [dictSet, dictGet]
  | cons p t ih =>
    obtain ⟨a, b⟩ := p
    by_cases h : a = k <;> simp [dictSet, dictGet, h, ih]

theorem dictGet_dictSet_ne {α β : Type} [DecidableEq α]
    (d : List (α × β)) (k j : α) (v : β) (hne : j ≠ k) :
    dictGet (dictSet d k v) j = dictGet d j := by
  have hkj : ¬ k = j := fun h => hne h.symm
  induction d with
  | nil => simp [dictSet, dictGet, hkj]
  | cons p t ih =>
    obtain ⟨a, b⟩ := p
    by_cases h : a = k
    · subst h
      simp [dictSet, dictGet, hkj]
    · by_cases h2 : a = j
      · subst h2
        simp [dictSet, dictGet, h, hkj]
      · simp [dictSet, dictGet, h, h2, ih]

theorem dictContains_dictSet {α β : Type} [DecidableEq α]
    (d : List (α × β)) (k j : α) (v : β) :
    dictContains (dictSet d k v) j = (dictContains d j || decide (j = k)) := by
  induction d with
  | nil =>
    by_cases h : k = j
    · simp [dictSet, dictContains, h]
    · have hjk : ¬ j = k := fun hx => h (Eq.symm hx)
      simp [dictSet, dictContains, h, hjk]
  | cons p t ih =>
    obtain ⟨a, b⟩ := p
    by_cases h : a = k
    · subst h
      by_cases h2 : a = j <;> simp [dictSet, dictContains, h2]
      intro h3
      exact absurd h3.symm h2
    · by_cases h2 : a = j
      · subst h2
        simp [dictSet, dictContains, h]
      · simp [dictSet, dictContains, h, h2, ih]

/-- Length of a dict after `d[k] = v` when the key is already present. -/
theorem dictSet_length_mem {α β : Type} [DecidableEq α]
    (d : List (α × β)) (k : α) (v : β) (h : dictContains d k = true) :
    (dictSet d k v).length = d.length := by
  induction d with
  | nil => simp [dictContains] at h
  | cons p t ih =>
    obtain ⟨a, b⟩ := p
    by_cases ha : a = k
    · simp [dictSet, ha]
    · simp [dictContains, ha] at h
      simp [dictSet, ha, ih h]

/-! ## Merkle tree (`src/chainforgeledger/core/merkle.py`)

`sha256_hash` is applied to raw transaction strings and to the
concatenation of two digests; both uses are modelled by the injective
constructors of `HashV`. -/

/-- Symbolic SHA-256 digest: `hstr s` is the digest of the raw string `s`,
`hcat a b` the digest of the concatenation of digests `a` and `b`. -/
inductive HashV where
  | hstr : String → HashV
  | hcat : HashV → HashV → HashV
deriving DecidableEq, Repr

/-- One pairing step of `MerkleTree.build_tree`: combine adjacent digests,
duplicating the last digest of an odd-length level. -/
def pairUp : List HashV → List HashV
  | [] => []
  | [x] => [HashV.hcat x x]
  | x :: y :: rest => HashV.hcat x y :: pairUp rest

theorem pairUp_length_lt (l : List HashV) (h : 1 < l.length) :
    (pairUp l).length < l.length := by
  match l with
  | [] => simp at h
  | [x] => simp at h
  | x :: y :: rest =>
    match rest with
    | [] => simp [pairUp]
    | [z] => simp [pairUp]
    | z :: w :: r2 =>
      have := pairUp_length_lt (z :: w :: r2) (by simp)
      simp only [pairUp, List.length_cons] at *
      omega

/-- The `while len(leaves) > 1` loop of `build_tree`, collecting every level. -/
def buildLevels (leaves : List HashV) : List (List HashV) :=
  if _h : leaves.length ≤ 1 then [leaves]
  else leaves :: buildLevels (pairUp leaves)
termination_by leaves.length
decreasing_by exact pairUp_length_lt leaves (by omega)

/-- A built Merkle tree: the stored transaction list, root and levels. -/
structure MerkleTree where
  transactions : List String
  root : HashV
  levels : List (List HashV)
deriving Repr

/-- `MerkleTree.__init__` / `build_tree`: an empty transaction list hashes the
empty string; otherwise the levels are built bottom-up and the root is the
single digest of the last level. -/
def MerkleTree.build (transactions : List String) : MerkleTree :=
  if transactions = [] then
    ⟨transactions, HashV.hstr "", []⟩
  else
    let leaves := transactions.map HashV.hstr
    let levels := buildLevels leaves
    ⟨transactions, ((levels.getLastD []).headD (HashV.hstr "")), levels⟩

/-- The level-walking loop of `get_proof`; returns `none` on the
`IndexError` that Python raises when `sibling_index` falls outside the
level (the duplicated last node of an odd level has no stored sibling). -/
def getProofLoop : List (List HashV) → Nat → List HashV → Option (List HashV)
  | [], _, acc => some acc.reverse
  | level :: rest, index, acc =>
    if level.length = 1 then some acc.reverse
    else
      let sibling := if index % 2 = 0 then index + 1 else index - 1
      match level.get? sibling with
      | none => none
      | some h => getProofLoop rest (index / 2) (h :: acc)

/-- `MerkleTree.get_proof`: `some []` for an unknown transaction (the code
returns `[]`), `none` when the traversal raises `IndexError`. -/
def MerkleTree.get_proof (t : MerkleTree) (transaction : String) :
    Option (List HashV) :=
  if transaction ∈ t.transactions then
    getProofLoop t.levels (t.transactions.findIdx (· = transaction)) []
  else
    some []

/-- `MerkleTree.verify_proof`: rejects an empty transaction string or an
empty proof, then folds `sha256_hash(current + sibling)` over the proof
(the code never swaps the operands for right siblings). -/
def verify_proof (transaction : String) (proof : List HashV) (root : HashV) :
    Bool :=
  if transaction = "" ∨ proof = [] then false
  else (proof.foldl (fun cur sib => HashV.hcat cur sib) (HashV.hstr transaction)) = root

/-! ## Ledger state (`src/chainforgeledger/core/state.py`,
`src/chainforgeledger/core/transaction.py`) -/

/-- Balance map of `State`: Python `Dict[str, float]`, floats as `ℚ`. -/
abbrev Balances := List (String × ℚ)

/-- A core ledger `Transaction` (the fields read by validation and by
`State.apply_transaction`; `timestamp`/`data` do not influence either). -/
structure Tx where
  sender : String
  receiver : String
  amount : ℚ
  fee : ℚ
  signature : Option String
deriving DecidableEq, Repr

/-- `Transaction.validate_transaction`: Python falsiness of a string is
emptiness, of an optional signature `None` or the empty string. -/
def Tx.validate_transaction (tx : Tx) : Bool :=
  if tx.sender = "" ∨ tx.receiver = "" then false
  else if tx.amount ≤ 0 then false
  else if tx.fee < 0 then false
  else if tx.sender = tx.receiver then false
  else if tx.signature = none ∨ tx.signature = some "" then false
  else true

/-- `State.get_balance`: `balances.get(address, 0.0)`. -/
def get_balance (balances : Balances) (address : String) : ℚ :=
  (dictGet balances address).getD 0

/-- `State.update_balance`: create the entry at `0.0` when absent, add the
(possibly negative) amount, then clamp a negative result to `0.0`. -/
def update_balance (balances : Balances) (address : String) (amount : ℚ) :
    Balances :=
  let b1 := if dictContains balances address then balances
            else dictSet balances address 0
  let v := get_balance b1 address + amount
  dictSet b1 address (if v < 0 then 0 else v)

/-- `State.has_enough_balance`. -/
def has_enough_balance (balances : Balances) (address : String) (amount : ℚ) :
    Bool :=
  get_balance balances address ≥ amount

/-- `State.apply_transaction`: returns the Python result (`True` on
success) together with the resulting balance map. -/
def State.apply_transaction (balances : Balances) (tx : Tx) : Bool × Balances :=
  if ¬ tx.validate_transaction then (false, balances)
  else if ¬ has_enough_balance balances tx.sender (tx.amount + tx.fee) then
    (false, balances)
  else
    let b1 := update_balance balances tx.sender (-(tx.amount + tx.fee))
    let b2 := update_balance b1 tx.receiver tx.amount
    (true, b2)

/-- `State.get_total_supply`: `sum(self.balances.values())`. -/
def get_total_supply (balances : Balances) : ℚ :=
  (balances.map Prod.snd).sum

theorem get_total_supply_dictSet (d : Balances) (k : String) (v : ℚ) :
    get_total_supply (dictSet d k v) =
      get_total_supply d + v - (if dictContains d k then get_balance d k else 0) := by
  induction d with
  | nil => simp [dictSet, get_total_supply, dictContains]
  | cons p t ih =>
    obtain ⟨a, b⟩ := p
    by_cases h : a = k
    · subst h
      simp [dictSet, dictContains, get_total_supply, get_balance, dictGet]
      ring
    · simp [dictSet, dictContains, get_total_supply, get_balance, dictGet, h] at *
      rw [ih]
      by_cases h2 : dictContains t k = true <;> simp [h2] <;> ring

theorem get_balance_dictSet_self (d : Balances) (k : String) (v : ℚ) :
    get_balance (dictSet d k v) k = v := by
  simp [get_balance, dictGet_dictSet_self]

theorem get_balance_dictSet_ne (d : Balances) (k j : String) (v : ℚ) (h : j ≠ k) :
    get_balance (dictSet d k v) j = get_balance d j := by
  simp [get_balance, dictGet_dictSet_ne _ _ _ _ h]

/-- Effect of `update_balance` on the total supply. -/
theorem get_total_supply_update_balance (d : Balances) (a : String) (x : ℚ) :
    get_total_supply (update_balance d a x) =
      get_total_supply d - get_balance d a +
        (if get_balance d a + x < 0 then 0 else get_balance d a + x) := by
  unfold update_balance
  by_cases h : dictContains d a = true
  · simp only [h, if_true]
    rw [get_total_supply_dictSet]
    simp [h]
    ring
  · simp only [h]
    have hget : get_balance d a = 0 := by
      induction d with
      | nil => simp [get_balance, dictGet]
      | cons p t ih =>
        obtain ⟨u, w⟩ := p
        by_cases hu : u = a
        · simp [dictContains, hu] at h
        · simp [dictContains, hu] at h
          simp [get_balance, dictGet, hu] at *
          exact ih h
    simp only [Bool.false_eq_true, if_false]
    rw [get_total_supply_dictSet]
    rw [get_balance_dictSet_self]
    rw [get_total_supply_dictSet]
    simp [h, hget, dictContains_dictSet]

theorem get_balance_update_balance_ne (d : Balances) (a j : String) (x : ℚ)
    (h : j ≠ a) : get_balance (update_balance d a x) j = get_balance d j := by
  unfold update_balance
  by_cases hc : dictContains d a = true
  · simp only [hc, if_true]
    exact get_balance_dictSet_ne _ _ _ _ h
  · simp only [hc, Bool.false_eq_true, if_false]
    rw [get_balance_dictSet_ne _ _ _ _ h, get_balance_dictSet_ne _ _ _ _ h]

theorem dictGet_mem {α β : Type} [DecidableEq α]
    (d : List (α × β)) (k : α) (v : β) (h : dictGet d k = some v) : (k, v) ∈ d := by
  induction d with
  | nil => simp [dictGet] at h
  | cons p t ih =>
    obtain ⟨a, b⟩ := p
    by_cases ha : a = k
    · subst ha
      simp [dictGet] at h
      simp [h]
    · simp [dictGet, ha] at h
      simp [ih h]

theorem get_balance_nonneg (d : Balances) (a : String)
    (h : ∀ p ∈ d, 0 ≤ p.2) : 0 ≤ get_balance d a := by
  unfold get_balance
  cases hv : dictGet d a with
  | none => simp
  | some v =>
    have := h (a, v) (dictGet_mem d a v hv)
    simpa using this

theorem validate_facts (tx : Tx) (h : tx.validate_transaction = true) :
    0 < tx.amount ∧ 0 ≤ tx.fee ∧ tx.sender ≠ tx.receiver := by
  unfold Tx.validate_transaction at h
  split_ifs at h with h1 h2 h3 h4 h5
  refine ⟨by linarith [not_le.mp (by simpa using h2)], by linarith [not_lt.mp (by simpa using h3)], by simpa using h4⟩

/-- C1: for every Merkle tree over a non-empty transaction list and every
transaction `t` in it, `verify_proof(t, get_proof(t), root)` is claimed to
hold, and any mutation of the list is claimed to change the root.  The code
violates both halves: (i) for the tree over `["a", "b"]`, the proof of `"b"`
is `[h("a")]` but `verify_proof` hashes `h("b") ++ h("a")` instead of
`h("a") ++ h("b")` and returns `False`; (ii) for the singleton tree over
`["a"]` the proof is `[]` and `verify_proof` rejects empty proofs; (iii)
appending the duplicate transaction `"c"` to `["a", "b", "c"]` leaves the
root unchanged because an odd level duplicates its last node. -/
theorem merkle_proof_roundtrip_fails_C1 :
    ((MerkleTree.build ["a", "b"]).get_proof "b" = some [HashV.hstr "a"]
        ∧ verify_proof "b" [HashV.hstr "a"] (MerkleTree.build ["a", "b"]).root = false)
    ∧ ((MerkleTree.build ["a"]).get_proof "a" = some []
        ∧ verify_proof "a" [] (MerkleTree.build ["a"]).root = false)
    ∧ (MerkleTree.build ["a", "b", "c"]).root
        = (MerkleTree.build ["a", "b", "c", "c"]).root := by
  refine ⟨⟨?_, ?_⟩, ⟨?_, ?_⟩, ?_⟩
  · simp [MerkleTree.build, MerkleTree.get_proof, buildLevels, pairUp, getProofLoop,
      List.findIdx, List.findIdx.go]
  · simp [MerkleTree.build, buildLevels, pairUp, verify_proof]
  · simp [MerkleTree.build, MerkleTree.get_proof, buildLevels, pairUp, getProofLoop,
      List.findIdx, List.findIdx.go]
  · simp [verify_proof]
  · simp [MerkleTree.build, buildLevels, pairUp]

/-- C2: the claim that a successful non-reward `State.apply_transaction`
preserves the sum of all balances is false: the sender is debited
`amount + fee` while the receiver is credited only `amount`, so the fee is
burned.  Concretely, applying a transfer of 10 with fee 1 from `A`
(balance 100) succeeds and drops the total supply from 100 to 99. -/
theorem conservation_counterexample_C2 :
    (State.apply_transaction [("A", (100 : ℚ))]
        ⟨"A", "B", 10, 1, some "sig"⟩).1 = true
    ∧ get_total_supply (State.apply_transaction [("A", (100 : ℚ))]
        ⟨"A", "B", 10, 1, some "sig"⟩).2
      ≠ get_total_supply [("A", (100 : ℚ))] := by
  simp +decide [State.apply_transaction, Tx.validate_transaction, has_enough_balance,
    get_balance, dictGet, update_balance, dictSet, dictContains, get_total_supply]
  norm_num

/-- C2 (amended): for every balance map with non-negative balances and
every non-reward transaction that `State.apply_transaction` applies
successfully, the total supply after application equals the total supply
before minus the transaction fee (the fee is burned; conservation holds
exactly for zero-fee transactions). -/
theorem conservation_fee_burn_C2 (balances : Balances) (tx : Tx)
    (hnn : ∀ p ∈ balances, 0 ≤ p.2)
    (_hnr : tx.sender ≠ "0")
    (hsucc : (State.apply_transaction balances tx).1 = true) :
    get_total_supply (State.apply_transaction balances tx).2
      = get_total_supply balances - tx.fee := by
  have hv : tx.validate_transaction = true := by
    by_contra hv
    simp [State.apply_transaction, hv] at hsucc
  have he : has_enough_balance balances tx.sender (tx.amount + tx.fee) = true := by
    by_contra he
    simp [State.apply_transaction, hv, he] at hsucc
  obtain ⟨hamt, hfee, hsr⟩ := validate_facts tx hv
  have henough : tx.amount + tx.fee ≤ get_balance balances tx.sender := by
    simpa [has_enough_balance, ge_iff_le] using he
  simp only [State.apply_transaction, hv, he, not_true, Bool.not_true,
    Bool.false_eq_true, if_false, ite_true, ite_false, not_false_iff, if_true]
  have h1 : get_total_supply (update_balance balances tx.sender (-(tx.amount + tx.fee)))
      = get_total_supply balances - (tx.amount + tx.fee) := by
    rw [get_total_supply_update_balance]
    have hpos : ¬ (get_balance balances tx.sender + -(tx.amount + tx.fee) < 0) := by
      rw [not_lt]
      linarith
    simp only [hpos, if_false]
    ring
  have hrb : get_balance (update_balance balances tx.sender (-(tx.amount + tx.fee)))
      tx.receiver = get_balance balances tx.receiver :=
    get_balance_update_balance_ne _ _ _ _ (fun h => hsr h.symm)
  rw [get_total_supply_update_balance, h1, hrb]
  have hrnn : 0 ≤ get_balance balances tx.receiver := get_balance_nonneg _ _ hnn
  have hnoclamp : ¬ (get_balance balances tx.receiver + tx.amount < 0) := by
    rw [not_lt]
    linarith
  simp only [hnoclamp, if_false]
  ring

/-- C2 witness: the amended fee-burn law evaluated at the concrete
counterexample state. -/
theorem conservation_fee_burn_witness_C2 :
    get_total_supply (State.apply_transaction [("A", (100 : ℚ))]
        ⟨"A", "B", 10, 1, some "sig"⟩).2
      = get_total_supply [("A", (100 : ℚ))] - (1 : ℚ) :=
  conservation_fee_burn_C2 [("A", (100 : ℚ))] ⟨"A", "B", 10, 1, some "sig"⟩
    (by norm_num)
    (by simp)
    (by
      simp +decide [State.apply_transaction, Tx.validate_transaction,
        has_enough_balance, get_balance, dictGet, update_balance, dictSet, dictContains]
      norm_num)

/-! ## Proof-of-work difficulty adjustment
(`src/chainforgeledger/consensus/pow.py`, `ProofOfWork.adjust_difficulty`)

Only block timestamps and the chain length enter the computation, so the
chain is embedded as its list of timestamps. -/

/-- Sum of consecutive timestamp differences, the
`for i in range(start, len-1): total += t[i+1] - t[i]` loop applied to the
suffix of the chain starting at `start`. -/
def sumGaps : List ℚ → ℚ
  | [] => 0
  | [_] => 0
  | a :: b :: rest => (b - a) + sumGaps (b :: rest)

/-- `ProofOfWork.adjust_difficulty`: `chainTimes` are the timestamps of
`self.blockchain.chain` in order; returns the new difficulty. -/
def adjust_difficulty (chainTimes : List ℚ) (difficulty : ℤ)
    (blocks_per_adjustment : ℕ) (target_time : ℚ) : ℤ :=
  if chainTimes.length < blocks_per_adjustment then difficulty
  else
    let total_time := sumGaps (chainTimes.drop (chainTimes.length - blocks_per_adjustment))
    let average_time := total_time / (blocks_per_adjustment : ℚ)
    if average_time < target_time * (1/2) then difficulty + 1
    else if average_time > target_time * 2 then max 1 (difficulty - 1)
    else difficulty

/-- Modelled from the spec: the mean inter-block time over the last
`window` blocks, i.e. the total elapsed time divided by the `window - 1`
gaps between those blocks (what C9 calls "the mean inter-block time"). -/
def specMeanInterBlockTime (chainTimes : List ℚ) (window : ℕ) : ℚ :=
  sumGaps (chainTimes.drop (chainTimes.length - window)) / ((window : ℚ) - 1)

/-- C9: the claim reads the trigger condition as "mean inter-block time
over the last `window` blocks < half the target" but the code divides the
summed `window - 1` gaps by `window`.  Counterexample: 10 blocks spaced
exactly 31 seconds apart with target 60.  The mean inter-block time is 31,
which is not below half the target (30), so the claim says the difficulty
is left unchanged; the code computes 279/10 = 27.9 < 30 and increments the
difficulty from 3 to 4. -/
theorem adjust_difficulty_counterexample_C9 :
    adjust_difficulty [0, 31, 62, 93, 124, 155, 186, 217, 248, 279] 3 10 60 = 4
    ∧ specMeanInterBlockTime [0, 31, 62, 93, 124, 155, 186, 217, 248, 279] 10 = 31
    ∧ ¬ ((31 : ℚ) < 60 * (1/2)) := by
  refine ⟨?_, ?_, by norm_num⟩
  · norm_num [adjust_difficulty, sumGaps]
  · norm_num [specMeanInterBlockTime, sumGaps]

/-- C9 (amended): for every chain of at least `window ≥ 2` blocks,
`adjust_difficulty` increments the difficulty by 1 when the total elapsed
time over the last `window` blocks divided by `window` — that is, the mean
inter-block time scaled by `(window-1)/window` — is below half the target
time, decrements it by 1 (never below 1) when that quantity exceeds double
the target time, and leaves it unchanged otherwise. -/
theorem adjust_difficulty_amended_C9 (chainTimes : List ℚ) (difficulty : ℤ)
    (window : ℕ) (target_time : ℚ)
    (hlen : window ≤ chainTimes.length) (hw : 2 ≤ window) :
    (adjust_difficulty chainTimes difficulty window target_time
        = if specMeanInterBlockTime chainTimes window * ((window : ℚ) - 1) / window
              < target_time * (1/2) then
            difficulty + 1
          else if specMeanInterBlockTime chainTimes window * ((window : ℚ) - 1) / window
              > target_time * 2 then
            max 1 (difficulty - 1)
          else difficulty)
    ∧ (1 ≤ difficulty →
        1 ≤ adjust_difficulty chainTimes difficulty window target_time) := by
  have hwq : ((window : ℚ) - 1) ≠ 0 := by
    have : (2 : ℚ) ≤ (window : ℚ) := by exact_mod_cast hw
    intro h
    have : (window : ℚ) = 1 := by linarith
    linarith
  have hmean : specMeanInterBlockTime chainTimes window * ((window : ℚ) - 1) / window
      = sumGaps (chainTimes.drop (chainTimes.length - window)) / (window : ℚ) := by
    unfold specMeanInterBlockTime
    field_simp
  constructor
  · rw [hmean]
    unfold adjust_difficulty
    have hnl : ¬ chainTimes.length < window := not_lt.mpr hlen
    simp only [hnl, if_false]
  · intro hd
    unfold adjust_difficulty
    have hnl : ¬ chainTimes.length < window := not_lt.mpr hlen
    simp only [hnl, if_false]
    split_ifs <;> omega

/-- C9 witness: the amended characterization evaluated on the
counterexample chain. -/
theorem adjust_difficulty_amended_witness_C9 :
    adjust_difficulty [0, 31, 62, 93, 124, 155, 186, 217, 248, 279] 3 10 60
      = if specMeanInterBlockTime [0, 31, 62, 93, 124, 155, 186, 217, 248, 279] 10
            * ((10 : ℚ) - 1) / 10 < 60 * (1/2) then (3 : ℤ) + 1
        else if specMeanInterBlockTime [0, 31, 62, 93, 124, 155, 186, 217, 248, 279] 10
            * ((10 : ℚ) - 1) / 10 > 60 * 2 then max 1 (3 - 1)
        else 3 :=
  (adjust_difficulty_amended_C9 [0, 31, 62, 93, 124, 155, 186, 217, 248, 279] 3 10 60
    (by norm_num) (by norm_num)).1

/-! ## Validator selection (`src/chainforgeledger/consensus/validator.py`)

`random.uniform(0, total_effective_stake)` is modelled by an explicit draw
`r` constrained to that interval. -/

/-- A `Validator` (the fields read by selection). -/
structure Validator where
  address : String
  stake : ℚ
  reputation : ℚ
  blocks_produced : ℕ
  status : String
deriving DecidableEq, Repr

/-- `Validator.is_active`. -/
def Validator.is_active (v : Validator) : Bool := v.status = "active"

/-- `Validator.get_effective_stake`: `stake * reputation`. -/
def Validator.get_effective_stake (v : Validator) : ℚ := v.stake * v.reputation

/-- `ValidatorManager.validators`: a dict keyed by address. -/
abbrev ValidatorPool := List (String × Validator)

/-- `ValidatorManager.get_active_validators`: the active subsequence of the
dict values in insertion order. -/
def get_active_validators (pool : ValidatorPool) : List Validator :=
  (pool.map Prod.snd).filter (fun v => v.is_active)

/-- The accumulation loop of `select_validator`: walk the active list
adding effective stakes, returning the first validator whose running total
reaches the draw. -/
def selectWalk : List Validator → ℚ → ℚ → Option Validator
  | [], _, _ => none
  | v :: rest, r, current =>
    if r ≤ current + v.get_effective_stake then some v
    else selectWalk rest r (current + v.get_effective_stake)

/-- `ValidatorManager.select_validator` with the uniform draw `r` made
explicit; the final `return active_validators[0]` is the fallback when the
loop finishes without firing. -/
def select_validator (pool : ValidatorPool) (r : ℚ) : Option Validator :=
  let active_validators := get_active_validators pool
  if active_validators = [] then none
  else
    match selectWalk active_validators r 0 with
    | some v => some v
    | none => active_validators.head?

theorem selectWalk_mem (l : List Validator) (r current : ℚ) (v : Validator)
    (h : selectWalk l r current = some v) : v ∈ l := by
  induction l generalizing current with
  | nil => simp [selectWalk] at h
  | cons a t ih =>
    by_cases hc : r ≤ current + a.get_effective_stake
    · simp [selectWalk, hc] at h
      simp [h]
    · simp [selectWalk, hc] at h
      exact List.mem_cons_of_mem _ (ih _ h)

/-- C10: `select_validator` returns `None` exactly when there is no active
validator; otherwise it returns a member of the active list (hence an
active validator) for every admissible draw, and when every active
validator's effective stake is zero the draw is forced to 0 and the first
active validator in iteration order is returned (the loop fires on its
first element since `0 <= 0`). -/
theorem select_validator_C10 (pool : ValidatorPool) (r : ℚ)
    (_h0 : 0 ≤ r)
    (hr : r ≤ ((get_active_validators pool).map Validator.get_effective_stake).sum) :
    (select_validator pool r = none ↔ get_active_validators pool = [])
    ∧ (∀ v, select_validator pool r = some v →
        v ∈ get_active_validators pool ∧ v.is_active = true)
    ∧ ((∀ v ∈ get_active_validators pool, v.get_effective_stake = 0) →
        get_active_validators pool ≠ [] →
        select_validator pool r = (get_active_validators pool).head?) := by
  refine ⟨?_, ?_, ?_⟩
  · unfold select_validator
    by_cases hempty : get_active_validators pool = []
    · simp [hempty]
    · rw [if_neg hempty]
      have hne2 : (match selectWalk (get_active_validators pool) r 0 with
          | some v => some v
          | none => (get_active_validators pool).head?) ≠ none := by
        cases hw : selectWalk (get_active_validators pool) r 0 with
        | some v => simp
        | none =>
          cases hact : get_active_validators pool with
          | nil => exact absurd hact hempty
          | cons a t => simp [hact]
      exact ⟨fun h => absurd h hne2, fun h => absurd h hempty⟩
  · intro v hv
    unfold select_validator at hv
    by_cases hempty : get_active_validators pool = []
    · simp [hempty] at hv
    · simp only [hempty, if_false] at hv
      have hmem : v ∈ get_active_validators pool := by
        cases hw : selectWalk (get_active_validators pool) r 0 with
        | some w =>
          simp only [hw] at hv
          cases hv
          exact selectWalk_mem _ _ _ _ hw
        | none =>
          simp only [hw] at hv
          exact List.mem_of_mem_head? hv
      refine ⟨hmem, ?_⟩
      have hf := List.mem_filter.mp
        (show v ∈ (pool.map Prod.snd).filter (fun w => w.is_active) from
          by simpa [get_active_validators] using hmem)
      simpa using hf.2
  · intro hzero hne
    unfold select_validator
    simp only [hne, if_false]
    cases hact : get_active_validators pool with
    | nil => exact absurd hact hne
    | cons a t =>
      have ha : a.get_effective_stake = 0 := hzero a (by rw [hact]; exact List.mem_cons_self a t)
      have hrz : r ≤ 0 := by
        have hsum : ((get_active_validators pool).map Validator.get_effective_stake).sum = 0 := by
          rw [List.sum_eq_zero]
          intro x hx
          simp only [List.mem_map] at hx
          obtain ⟨v, hvmem, hvx⟩ := hx
          rw [← hvx]
          exact hzero v hvmem
        linarith [hr, hsum.ge]
      have hfire : r ≤ a.get_effective_stake := by
        rw [ha]
        exact hrz
      simp [selectWalk, hfire]

/-- C10 witness: a pool with one active zero-stake validator and the
forced draw 0 selects that first validator. -/
theorem select_validator_witness_C10 :
    select_validator [("v1", ⟨"v1", 0, 1, 0, "active"⟩)] 0
      = (get_active_validators [("v1", ⟨"v1", 0, 1, 0, "active"⟩)]).head? :=
  (select_validator_C10 [("v1", ⟨"v1", 0, 1, 0, "active"⟩)] 0
    (by norm_num)
    (by simp +decide [get_active_validators, Validator.get_effective_stake, Validator.is_active])).2.2
    (by simp +decide [get_active_validators, Validator.get_effective_stake, Validator.is_active])
    (by simp +decide [get_active_validators, Validator.is_active])

/-! ## Runtime state machine (`src/chainforgeledger/runtime/state_machine.py`)

Account records are mutable Python dicts shared by reference between
`state['accounts']` and snapshots (`dict(...)` copies only the outer map),
so the embedding separates the address → reference map from a reference →
record heap.  `await` on the sequential bodies is modelled by ordinary
sequencing. -/

/-- One account record `{'balance','nonce','code','storage'}`. -/
structure Account where
  balance : ℚ
  nonce : ℕ
  code : String
  storage : List (String × String)
deriving DecidableEq, Repr

/-- A reference to a mutable account record. -/
abbrev Ref := ℕ

/-- A contract registry entry. -/
structure ContractInfo where
  code : String
  created_block : ℤ
  created_transaction : String
deriving DecidableEq, Repr

/-- The `state['block']` metadata. -/
structure BlockInfo where
  number : ℤ
  hash : String
  timestamp : ℚ
deriving DecidableEq, Repr

/-- The observable content of the state: what `str(self.state)` serializes
(account records read through their references).  `_calculate_state_root`
hashes this string; with the hash injective, a root is represented by the
serialized content itself. -/
structure StateObs where
  accounts : List (String × Option Account)
  contracts : List (String × ContractInfo)
  storage : List (String × String)
  block : BlockInfo
deriving DecidableEq, Repr

/-- A `StateSnapshot`: `accounts`/`contracts` hold the `dict(...)` shallow
copies — the same references as the live state at snapshot time. -/
structure StateSnapshot where
  block_number : ℤ
  block_hash : String
  state_root : StateObs
  timestamp : ℚ
  accounts : List (String × Ref)
  contracts : List (String × ContractInfo)
deriving DecidableEq, Repr

/-- The `StateMachine` state. -/
structure SMState where
  accounts : List (String × Ref)
  heap : List (Ref × Account)
  nextRef : Ref
  contracts : List (String × ContractInfo)
  storage : List (String × String)
  block : BlockInfo
  snapshots : List (ℤ × StateSnapshot)
  current_block_number : ℤ
  state_root : StateObs
deriving DecidableEq, Repr

/-- Dereference an account record (total; every reference stored in a
reachable state is allocated, so the default is never read there). -/
def heapGet (heap : List (Ref × Account)) (r : Ref) : Account :=
  (dictGet heap r).getD ⟨0, 0, "", []⟩

/-- `_calculate_state_root`, with `sha256_hash` injective (see `StateObs`). -/
def calculate_state_root (s : SMState) : StateObs :=
  ⟨s.accounts.map (fun p => (p.1, dictGet s.heap p.2)), s.contracts, s.storage, s.block⟩

/-- The runtime transaction shape read by `StateMachine` (`from_address`,
`to_address`, `value`, `gas_limit`, `nonce`, `data`, `id`); an empty
`to_address` is the falsy contract-creation marker.  `fee` is carried by
the ledger's transactions but never read by the state machine. -/
structure RTx where
  from_address : String
  to_address : String
  value : ℚ
  gas_limit : ℤ
  nonce : ℕ
  data : String
  id : String
  fee : ℚ
deriving DecidableEq, Repr

/-- An `ExecutionResult` (the `logs`/`output` fields are never populated
by `apply_transaction` and are omitted). -/
structure ExecutionResult where
  success : Bool
  state_root : StateObs
  gas_used : ℤ
  gas_limit : ℤ
  error : Option String
deriving DecidableEq, Repr

/-- `_calculate_contract_address`: `sha256_hash(f"{from}:{nonce}")`,
injective on the digest. -/
def calculate_contract_address (tx : RTx) : String :=
  "sha256(" ++ tx.from_address ++ ":" ++ toString tx.nonce ++ ")"

/-- The reference of the sender's account record. -/
def senderRef (s : SMState) (tx : RTx) : Ref :=
  (dictGet s.accounts tx.from_address).getD 0

/-- `StateMachine._execute_transaction`. -/
def executeTransaction (s : SMState) (tx : RTx) : SMState :=
  if tx.to_address ≠ "" then
    let s1 :=
      if dictContains s.accounts tx.to_address then s
      else
        { s with accounts := dictSet s.accounts tx.to_address s.nextRef,
                 heap := dictSet s.heap s.nextRef ⟨0, 0, "", []⟩,
                 nextRef := s.nextRef + 1 }
    let sref := senderRef s1 tx
    let sacct := heapGet s1.heap sref
    let s2 := { s1 with
      heap := dictSet s1.heap sref { sacct with balance := sacct.balance - tx.value } }
    let tref := (dictGet s2.accounts tx.to_address).getD 0
    let tacct := heapGet s2.heap tref
    let s3 := { s2 with
      heap := dictSet s2.heap tref { tacct with balance := tacct.balance + tx.value } }
    let sacct2 := heapGet s3.heap sref
    { s3 with heap := dictSet s3.heap sref { sacct2 with nonce := sacct2.nonce + 1 } }
  else
    let caddr := calculate_contract_address tx
    let s1 := { s with
      accounts := dictSet s.accounts caddr s.nextRef,
      heap := dictSet s.heap s.nextRef ⟨tx.value, 0, tx.data, []⟩,
      nextRef := s.nextRef + 1 }
    let sref := senderRef s1 tx
    let sacct := heapGet s1.heap sref
    let s2 := { s1 with
      heap := dictSet s1.heap sref { sacct with balance := sacct.balance - tx.value } }
    let sacct2 := heapGet s2.heap sref
    let s3 := { s2 with
      heap := dictSet s2.heap sref { sacct2 with nonce := sacct2.nonce + 1 } }
    { s3 with
      contracts := dictSet s3.contracts caddr
        ⟨tx.data, s3.current_block_number, tx.id⟩ }

/-- `StateMachine.apply_transaction`: the three guard exceptions are caught
into a failed `ExecutionResult`; on success the state root is recomputed
and `gas_used = gas_limit // 2`. -/
def SMState.apply_transaction (s : SMState) (tx : RTx) :
    SMState × ExecutionResult :=
  if ¬ dictContains s.accounts tx.from_address then
    (s, ⟨false, s.state_root, 0, tx.gas_limit, some "Sender account not found"⟩)
  else if (heapGet s.heap (senderRef s tx)).balance < tx.value then
    (s, ⟨false, s.state_root, 0, tx.gas_limit, some "Insufficient balance"⟩)
  else if tx.gas_limit < 21000 then
    (s, ⟨false, s.state_root, 0, tx.gas_limit, some "Gas limit too low"⟩)
  else
    let s1 := executeTransaction s tx
    let s2 := { s1 with state_root := calculate_state_root s1 }
    (s2, ⟨true, s2.state_root, tx.gas_limit / 2, tx.gas_limit, none⟩)

/-- `StateMachine.create_snapshot`: `block_num = block_number or
self.current_block_number` (Python `or`, so both `None` and `0` fall back
to the current block number); `time.time()` is the explicit `now`. -/
def SMState.create_snapshot (s : SMState) (block_number : Option ℤ) (now : ℚ) :
    SMState :=
  let block_num :=
    match block_number with
    | none => s.current_block_number
    | some n => if n = 0 then s.current_block_number else n
  let snapshot : StateSnapshot :=
    ⟨block_num, s.block.hash, s.state_root, now, s.accounts, s.contracts⟩
  { s with snapshots := dictSet s.snapshots block_num snapshot }

/-- `StateMachine.restore_snapshot`: `none` models the raised
"No snapshot found" exception; restoring reinstalls the snapshot's shallow
account-reference map, leaving the record heap untouched. -/
def SMState.restore_snapshot (s : SMState) (block_number : ℤ) :
    Option SMState :=
  match dictGet s.snapshots block_number with
  | none => none
  | some snapshot =>
    some { s with
      accounts := snapshot.accounts,
      contracts := snapshot.contracts,
      block := ⟨snapshot.block_number, snapshot.block_hash, snapshot.timestamp⟩,
      current_block_number := snapshot.block_number,
      state_root := snapshot.state_root }

/-- A one-account state machine: address `"A"` holds `bal` (before the
state root of `__init__` is computed). -/
def smAcctBase (bal : ℚ) : SMState :=
  { accounts := [("A", 0)],
    heap := [(0, ⟨bal, 0, "", []⟩)],
    nextRef := 1,
    contracts := [],
    storage := [],
    block := ⟨0, "0000000000000000000000000000000000000000000000000000000000000000", 0⟩,
    snapshots := [],
    current_block_number := 0,
    state_root := ⟨[], [], [], ⟨0, "", 0⟩⟩ }

/-- A one-account state machine with the state root computed as in
`StateMachine.__init__`. -/
def smAcct (bal : ℚ) : SMState :=
  { smAcctBase bal with state_root := calculate_state_root (smAcctBase bal) }

/-- A transfer of 10 from `A` to `B` with gas limit 21000 and fee 0. -/
def txTransfer : RTx := ⟨"A", "B", 10, 21000, 0, "", "t1", 0⟩

/-- C3: the claim that `create_snapshot` deep-copies the account map is
false — `dict(self.state['accounts'])` copies only the outer map, and the
mutable account records stay shared.  Starting from `A = 100`: snapshot at
height 1, apply a successful transfer of 10 from `A`, restore height 1;
the restored balance of `A` is 90, not the pre-snapshot 100 — the in-place
mutation leaked into the snapshot. -/
theorem snapshot_shallow_copy_counterexample_C3 :
    ((((smAcct 100).create_snapshot (some 1) 5).apply_transaction txTransfer).2.success
        = true)
    ∧ ((SMState.restore_snapshot
          (((smAcct 100).create_snapshot (some 1) 5).apply_transaction txTransfer).1 1).map
        (fun s3 => (heapGet s3.heap (senderRef s3 txTransfer)).balance) = some 90)
    ∧ (heapGet (smAcct 100).heap (senderRef (smAcct 100) txTransfer)).balance = 100 := by
  refine ⟨?_, ?_, ?_⟩ <;>
    norm_num [smAcct, smAcctBase, txTransfer, SMState.create_snapshot,
      SMState.apply_transaction, SMState.restore_snapshot, executeTransaction,
      calculate_state_root, heapGet, senderRef, dictGet, dictContains, dictSet]

/-- C3 (amended): `create_snapshot(h)` (for `h ≠ 0`, which Python's
falsy-`or` would redirect) immediately followed by `restore_snapshot(h)`
reproduces the pre-snapshot account-reference map, account-record heap,
contract registry and state root; but when transactions are applied
between the snapshot and the restore, in-place mutations of pre-existing
account records leak into the snapshot (the copy is shallow), and the
restored block metadata is rewritten from the snapshot key and its
wall-clock creation time. -/
theorem snapshot_restore_roundtrip_C3 (s : SMState) (h : ℤ) (now : ℚ)
    (hh : h ≠ 0) :
    (SMState.restore_snapshot (s.create_snapshot (some h) now) h).map
        (fun s2 => (s2.accounts, s2.heap, s2.contracts, s2.state_root))
      = some (s.accounts, s.heap, s.contracts, s.state_root) := by
  unfold SMState.create_snapshot SMState.restore_snapshot
  simp [hh, dictGet_dictSet_self]

/-- C3 witness: the round-trip law evaluated on the concrete one-account
state at height 1. -/
theorem snapshot_restore_roundtrip_witness_C3 :
    (SMState.restore_snapshot ((smAcct 100).create_snapshot (some 1) 5) 1).map
        (fun s2 => (s2.accounts, s2.heap, s2.contracts, s2.state_root))
      = some ((smAcct 100).accounts, (smAcct 100).heap, (smAcct 100).contracts,
          (smAcct 100).state_root) :=
  snapshot_restore_roundtrip_C3 (smAcct 100) 1 5 (by norm_num)

/-- A transfer of 10 from `A` to `B` carrying a ledger fee of 1. -/
def txWithFee : RTx := ⟨"A", "B", 10, 21000, 0, "", "t1", 1⟩

/-- C7: the claim that `apply_transaction` fails with `InsufficientBalance`
exactly when `balance < amount + fee` is false — the code compares the
balance against `transaction.value` alone and never reads a fee.  With
`A = 10` and a transfer of `amount 10, fee 1`, the claim demands an
insufficient-balance failure (`10 < 11`), but the code succeeds
(`10 < 10` is false). -/
theorem apply_transaction_fee_ignored_C7 :
    ((smAcct 10).apply_transaction txWithFee).2.success = true
    ∧ ((smAcct 10).apply_transaction txWithFee).2.error ≠ some "Insufficient balance"
    ∧ (heapGet (smAcct 10).heap (senderRef (smAcct 10) txWithFee)).balance
        < txWithFee.value + txWithFee.fee := by
  refine ⟨?_, ?_, ?_⟩ <;>
    simp +decide [smAcct, smAcctBase, txWithFee, SMState.apply_transaction,
      executeTransaction, calculate_state_root, heapGet, senderRef,
      dictGet, dictContains, dictSet]

/-- C7 (amended): `StateMachine.apply_transaction` fails with the
unknown-sender error exactly when the sender address is absent from the
account map; it fails with the insufficient-balance error exactly when the
sender is present and its balance is strictly less than the transferred
`value` alone (the fee is not part of the check — gas is never charged
either, a low `gas_limit` being a separate failure); and every failure
leaves the whole machine state (account map, record heap and state root)
unchanged. -/
theorem apply_transaction_errors_C7 (s : SMState) (tx : RTx) :
    ((s.apply_transaction tx).2.error = some "Sender account not found"
        ↔ dictContains s.accounts tx.from_address = false)
    ∧ ((s.apply_transaction tx).2.error = some "Insufficient balance"
        ↔ (dictContains s.accounts tx.from_address = true
            ∧ (heapGet s.heap (senderRef s tx)).balance < tx.value))
    ∧ ((s.apply_transaction tx).2.success = false → (s.apply_transaction tx).1 = s) := by
  unfold SMState.apply_transaction
  by_cases h1 : dictContains s.accounts tx.from_address = true
  · by_cases h2 : (heapGet s.heap (senderRef s tx)).balance < tx.value
    · simp +decide [h1, h2]
    · by_cases h3 : tx.gas_limit < 21000
      · simp +decide [h1, h2, h3]
      · simp +decide [h1, h2, h3]
  · simp +decide [h1]

/-! ## Finality gadget (`src/chainforgeledger/consensus/finality.py`)

`Checkpoint` objects are mutable and shared between `self.checkpoints`,
`self.justified_checkpoint` and `self.finalized_checkpoint`, so they live
in a reference heap.  Config fields never read by these operations
(`chain_id`, `min_validators`, `committee_size`, fork-choice state) are
omitted; validators only ever enter via `len(self.validators)` and ids. -/

/-- A finality `Vote`. -/
structure FVote where
  block_number : ℤ
  validator_id : String
  signature : String
  timestamp : ℚ
deriving DecidableEq, Repr

/-- A checkpoint `justification` record. -/
structure Justification where
  votes : List FVote
  signatureCount : ℕ
  thresholdMet : Bool
  timestamp : ℚ
deriving DecidableEq, Repr

/-- A `Checkpoint` record. -/
structure FCheckpoint where
  block_number : ℤ
  block_hash : String
  epoch : ℤ
  timestamp : ℚ
  validator_set : List String
  votes : List (String × FVote)
  justification : Option Justification
  finalized : Bool
  difficulty : ℤ
deriving DecidableEq, Repr

/-- A reference to a mutable checkpoint record. -/
abbrev CRef := ℕ

/-- The `FinalityManager` state. -/
structure FMState where
  validators : List String
  finality_threshold : ℚ
  justification_threshold : ℚ
  checkpoint_interval : ℤ
  checkpoints : List (ℤ × CRef)
  cheap : List (CRef × FCheckpoint)
  cnext : CRef
  justified_checkpoint : Option CRef
  finalized_checkpoint : Option CRef
  block_votes : List (ℤ × List (String × FVote))
  finality_gadget : String
deriving DecidableEq, Repr

/-- Dereference a checkpoint record (total; every stored reference is
allocated in reachable states, so the default is never read there). -/
def cpGet (fm : FMState) (r : CRef) : FCheckpoint :=
  (dictGet fm.cheap r).getD ⟨0, "", 0, 0, [], [], none, false, 0⟩

/-- Python `int(q)` on an exact rational: truncation toward zero. -/
def pyInt (q : ℚ) : ℤ := if q < 0 then -⌊-q⌋ else ⌊q⌋

/-- `FinalityManager.initialize` / `create_initial_checkpoint`: the genesis
checkpoint is created with `finalized=True` and `justification=None` and
installed as both the justified and the finalized checkpoint. -/
def FMState.initialState (validators : List String) (ft jt : ℚ) (interval : ℤ)
    (gadget : String) (now : ℚ) : FMState :=
  let genesis : FCheckpoint :=
    ⟨0, "0000000000000000000000000000000000000000000000000000000000000000",
      0, now, [], [], none, true, 0⟩
  { validators := validators,
    finality_threshold := ft,
    justification_threshold := jt,
    checkpoint_interval := interval,
    checkpoints := [(0, 0)],
    cheap := [(0, genesis)],
    cnext := 1,
    justified_checkpoint := some 0,
    finalized_checkpoint := some 0,
    block_votes := [],
    finality_gadget := gadget }

/-- The block fields read by `create_checkpoint`. -/
structure FBlock where
  index : ℤ
  hash : String
  timestamp : ℚ
  difficulty : ℤ
deriving DecidableEq, Repr

/-- `FinalityManager.create_checkpoint` (Python `//` is floor division). -/
def FMState.create_checkpoint (fm : FMState) (block : FBlock) : FMState :=
  let epoch := Int.fdiv block.index fm.checkpoint_interval
  let checkpoint : FCheckpoint :=
    ⟨block.index, block.hash, epoch, block.timestamp, fm.validators, [],
      none, false, block.difficulty⟩
  { fm with
    checkpoints := dictSet fm.checkpoints block.index fm.cnext,
    cheap := dictSet fm.cheap fm.cnext checkpoint,
    cnext := fm.cnext + 1,
    block_votes := dictSet fm.block_votes block.index [] }

/-- `FinalityManager.should_checkpoint` (Python `%` is floor mod). -/
def FMState.should_checkpoint (fm : FMState) (block_number : ℤ) : Bool :=
  block_number > 0 && Int.fmod block_number fm.checkpoint_interval = 0

/-- `FinalityManager.required_finality_votes`:
`int(len(validators) * finality_threshold) + 1`. -/
def FMState.required_finality_votes (fm : FMState) : ℤ :=
  pyInt ((fm.validators.length : ℚ) * fm.finality_threshold) + 1

/-- `FinalityManager.attempt_checkpoint_justification`: justifies when the
vote map for the height exists, its size reaches
`int(N * justification_threshold) + 1` and a checkpoint exists at the
height; the justified checkpoint is then replaced unconditionally.
Returns the updated state and the justified reference (`None` otherwise). -/
def FMState.attempt_checkpoint_justification (fm : FMState) (block_number : ℤ)
    (now : ℚ) : FMState × Option CRef :=
  match dictGet fm.block_votes block_number with
  | none => (fm, none)
  | some votes =>
    let required_votes := pyInt ((fm.validators.length : ℚ) * fm.justification_threshold) + 1
    if (votes.length : ℤ) ≥ required_votes then
      match dictGet fm.checkpoints block_number with
      | none => (fm, none)
      | some r =>
        let checkpoint := cpGet fm r
        let checkpoint2 := { checkpoint with
          justification := some ⟨votes.map Prod.snd, votes.length, true, now⟩ }
        ({ fm with
            cheap := dictSet fm.cheap r checkpoint2,
            justified_checkpoint := some r }, some r)
    else (fm, none)

/-- `FinalityManager.attempt_pbft_finality`. -/
def FMState.attempt_pbft_finality (fm : FMState) : FMState × Option CRef :=
  match fm.justified_checkpoint with
  | none => (fm, none)
  | some jr =>
    let current_height := (cpGet fm jr).block_number
    match dictGet fm.block_votes current_height with
    | none => (fm, none)
    | some votes =>
      if (votes.length : ℤ) ≥ fm.required_finality_votes then
        let checkpoint := cpGet fm jr
        ({ fm with
            cheap := dictSet fm.cheap jr { checkpoint with finalized := true },
            finalized_checkpoint := some jr }, some jr)
      else (fm, none)

/-- `FinalityManager.attempt_casper_ffg_finality`: looks up the checkpoint
of the previous epoch (`get_checkpoint_by_epoch(current_epoch - 1)`, i.e.
key `(epoch - 1) * interval`), requires it justified and not yet
finalized, and finalizes it once both its votes and the current justified
checkpoint's votes reach the finality threshold. -/
def FMState.attempt_casper_ffg_finality (fm : FMState) : FMState × Option CRef :=
  match fm.justified_checkpoint with
  | none => (fm, none)
  | some jr =>
    let current_epoch := (cpGet fm jr).epoch
    match dictGet fm.checkpoints ((current_epoch - 1) * fm.checkpoint_interval) with
    | none => (fm, none)
    | some pr =>
      let previous_checkpoint := cpGet fm pr
      if previous_checkpoint.justification ≠ none
          ∧ previous_checkpoint.finalized = false then
        let previous_votes := (dictGet fm.block_votes previous_checkpoint.block_number).getD []
        let current_votes := (dictGet fm.block_votes (cpGet fm jr).block_number).getD []
        if (previous_votes.length : ℤ) ≥ fm.required_finality_votes
            ∧ (current_votes.length : ℤ) ≥ fm.required_finality_votes then
          ({ fm with
              cheap := dictSet fm.cheap pr { previous_checkpoint with finalized := true },
              finalized_checkpoint := some pr }, some pr)
        else (fm, none)
      else (fm, none)

/-- `FinalityManager.attempt_lmd_finality`: `get_latest_block_by_chain`
returns `None` in the source, so the guard never passes and the state is
never changed. -/
def FMState.attempt_lmd_finality (fm : FMState) : FMState × Option CRef :=
  (fm, none)

/-- `FinalityManager.attempt_finality`: dispatch on the gadget tag. -/
def FMState.attempt_finality (fm : FMState) : FMState × Option CRef :=
  if fm.finality_gadget = "PBFT" then fm.attempt_pbft_finality
  else if fm.finality_gadget = "Casper FFG" then fm.attempt_casper_ffg_finality
  else fm.attempt_lmd_finality

/-- `FinalityManager.process_votes`: justification is attempted at
checkpoint heights, then finality whenever the justified checkpoint sits
strictly above the finalized one. -/
def FMState.process_votes (fm : FMState) (block_number : ℤ) (now : ℚ) : FMState :=
  if dictContains fm.block_votes block_number = false then fm
  else
    let fm1 :=
      if fm.should_checkpoint block_number then
        (fm.attempt_checkpoint_justification block_number now).1
      else fm
    match fm1.justified_checkpoint with
    | none => fm1
    | some jr =>
      match fm1.finalized_checkpoint with
      | none => fm1
      | some fr =>
        if (cpGet fm1 jr).block_number > (cpGet fm1 fr).block_number then
          (fm1.attempt_finality).1
        else fm1

/-- `FinalityManager.record_vote`: create the height's vote map if absent,
store the vote keyed by validator id (overwriting a duplicate), then
process the height. -/
def FMState.record_vote (fm : FMState) (v : FVote) (now : ℚ) : FMState :=
  let bv :=
    if dictContains fm.block_votes v.block_number then fm.block_votes
    else dictSet fm.block_votes v.block_number []
  let votes := (dictGet bv v.block_number).getD []
  let fm1 := { fm with
    block_votes := dictSet bv v.block_number (dictSet votes v.validator_id v) }
  fm1.process_votes v.block_number now

/-- A vote at height `bn` from validator `vid`. -/
def voteAt (bn : ℤ) (vid : String) : FVote := ⟨bn, vid, "sig", 0⟩

/-- The genesis checkpoint record as `create_initial_checkpoint` builds it. -/
def cpGenesisW : FCheckpoint :=
  ⟨0, "0000000000000000000000000000000000000000000000000000000000000000",
    0, 0, [], [], none, true, 0⟩

/-- Scenario checkpoint at height 32 (epoch 1), justified, not finalized. -/
def cp32W : FCheckpoint :=
  ⟨32, "h32", 1, 0, ["v1", "v2"], [],
    some ⟨[voteAt 32 "v1", voteAt 32 "v2"], 2, true, 0⟩, false, 0⟩

/-- Scenario checkpoint at height 64 (epoch 2), justified, not finalized. -/
def cp64W : FCheckpoint :=
  ⟨64, "h64", 2, 0, ["v1", "v2"], [],
    some ⟨[voteAt 64 "v1", voteAt 64 "v2"], 2, true, 0⟩, false, 0⟩

/-- The FFG two-step scenario: two validators, checkpoints 32 and 64 both
justified with full votes, 64 currently justified, nothing finalized past
genesis (required finality votes: `int(2*0.67)+1 = 2`). -/
def fmW : FMState :=
  { validators := ["v1", "v2"],
    finality_threshold := 67/100,
    justification_threshold := 1/2,
    checkpoint_interval := 32,
    checkpoints := [(0, 0), (32, 1), (64, 2)],
    cheap := [(0, cpGenesisW), (1, cp32W), (2, cp64W)],
    cnext := 3,
    justified_checkpoint := some 2,
    finalized_checkpoint := some 0,
    block_votes := [(32, [("v1", voteAt 32 "v1"), ("v2", voteAt 32 "v2")]),
                    (64, [("v1", voteAt 64 "v1"), ("v2", voteAt 64 "v2")])],
    finality_gadget := "Casper FFG" }

/-- C4: with the `'Casper FFG'` gadget and the justified checkpoint at
epoch `e`, `attempt_finality` only ever finalizes the checkpoint stored at
epoch `e - 1` (key `(e-1)*interval`) — never the current one — and only
when that previous checkpoint is justified, not yet finalized, and both
checkpoints' vote counts reach `int(N*finality_threshold)+1`; when it does
not finalize, the state is unchanged. -/
theorem attempt_finality_ffg_C4 (fm : FMState) (jr : CRef)
    (hg : fm.finality_gadget = "Casper FFG")
    (hj : fm.justified_checkpoint = some jr) :
    (∀ pr, (fm.attempt_finality).2 = some pr →
        dictGet fm.checkpoints (((cpGet fm jr).epoch - 1) * fm.checkpoint_interval)
            = some pr
        ∧ (((dictGet fm.block_votes (cpGet fm pr).block_number).getD []).length : ℤ)
            ≥ fm.required_finality_votes
        ∧ (((dictGet fm.block_votes (cpGet fm jr).block_number).getD []).length : ℤ)
            ≥ fm.required_finality_votes
        ∧ (cpGet fm pr).justification ≠ none
        ∧ (cpGet fm pr).finalized = false
        ∧ (cpGet (fm.attempt_finality).1 pr).finalized = true
        ∧ (fm.attempt_finality).1.finalized_checkpoint = some pr)
    ∧ ((fm.attempt_finality).2 = none → (fm.attempt_finality).1 = fm) := by
  have hdisp : fm.attempt_finality = fm.attempt_casper_ffg_finality := by
    unfold FMState.attempt_finality
    rw [hg]
    simp
  rw [hdisp]
  unfold FMState.attempt_casper_ffg_finality
  rw [hj]
  dsimp only
  cases hpr : dictGet fm.checkpoints (((cpGet fm jr).epoch - 1) * fm.checkpoint_interval) with
  | none =>
    refine ⟨fun pr hc => ?_, fun _ => rfl⟩
    simp at hc
  | some pr0 =>
    dsimp only
    split_ifs with hguard hvotes
    · refine ⟨fun pr hc => ?_, fun hc => ?_⟩
      · simp only [Option.some.injEq] at hc
        subst hc
        refine ⟨rfl, hvotes.1, hvotes.2, hguard.1, hguard.2, ?_, rfl⟩
        simp [cpGet, dictGet_dictSet_self]
      · simp at hc
    · exact ⟨fun pr hc => by simp at hc, fun _ => rfl⟩
    · exact ⟨fun pr hc => by simp at hc, fun _ => rfl⟩

/-- C4 witness: in the 32/64 scenario `attempt_finality` finalizes the
checkpoint at height 32, not the currently justified one at height 64. -/
theorem attempt_finality_ffg_witness_C4 :
    (fmW.attempt_finality).2 = some 1
    ∧ dictGet fmW.checkpoints (((cpGet fmW 2).epoch - 1) * fmW.checkpoint_interval)
        = some 1
    ∧ (cpGet (fmW.attempt_finality).1 1).finalized = true
    ∧ (fmW.attempt_finality).1.finalized_checkpoint = some 1
    ∧ (cpGet fmW 1).block_number = 32
    ∧ (cpGet fmW 2).block_number = 64 := by
  have hsome : (fmW.attempt_finality).2 = some 1 := by
    norm_num [fmW, FMState.attempt_finality, FMState.attempt_casper_ffg_finality,
      cpGenesisW, cp32W, cp64W, voteAt, cpGet, dictGet,
      FMState.required_finality_votes, pyInt]
    simp
  have hmain := (attempt_finality_ffg_C4 fmW 2 rfl rfl).1 1 hsome
  refine ⟨hsome, hmain.1, hmain.2.2.2.2.2.1, hmain.2.2.2.2.2.2, ?_, ?_⟩
  · norm_num [fmW, cpGet, dictGet, cp32W]
  · norm_num [fmW, cpGet, dictGet, cp64W]

/-- The operations C5 quantifies over. -/
inductive FOp where
  | recordVote (v : FVote) (now : ℚ)
  | attemptJustification (h : ℤ) (now : ℚ)
  | attemptFinality
deriving Repr

/-- Apply one operation to a `FinalityManager` state. -/
def applyFOp (fm : FMState) : FOp → FMState
  | FOp.recordVote v now => fm.record_vote v now
  | FOp.attemptJustification h now => (fm.attempt_checkpoint_justification h now).1
  | FOp.attemptFinality => (fm.attempt_finality).1

/-- Run a sequence of operations. -/
def runFOps (fm : FMState) : List FOp → FMState
  | [] => fm
  | op :: rest => runFOps (applyFOp fm op) rest

/-- Structural invariant of every state reachable from `initialize` by
`record_vote` / `attempt_justification` / `attempt_finality`: none of
these operations creates a checkpoint, so the genesis checkpoint (height
0, epoch 0, finalized) is the only checkpoint, and it stays both justified
and finalized. -/
def GenesisInv (fm : FMState) : Prop :=
  0 < fm.checkpoint_interval
  ∧ fm.checkpoints = [(0, 0)]
  ∧ (∃ cp : FCheckpoint, fm.cheap = [(0, cp)] ∧ cp.block_number = 0
      ∧ cp.epoch = 0 ∧ cp.finalized = true)
  ∧ fm.justified_checkpoint = some 0
  ∧ fm.finalized_checkpoint = some 0

theorem genesisInv_initialState (validators : List String) (ft jt : ℚ)
    (interval : ℤ) (gadget : String) (now : ℚ) (hint : 0 < interval) :
    GenesisInv (FMState.initialState validators ft jt interval gadget now) := by
  exact ⟨hint, rfl, ⟨_, rfl, rfl, rfl, rfl⟩, rfl, rfl⟩

theorem genesisInv_attempt_justification (fm : FMState) (h : ℤ) (now : ℚ)
    (hi : GenesisInv fm) :
    GenesisInv (fm.attempt_checkpoint_justification h now).1 := by
  obtain ⟨hint, hcps, ⟨cp, hheap, hbn, hep, hfin⟩, hjust, hfinal⟩ := hi
  unfold FMState.attempt_checkpoint_justification
  cases hv : dictGet fm.block_votes h with
  | none => exact ⟨hint, hcps, ⟨cp, hheap, hbn, hep, hfin⟩, hjust, hfinal⟩
  | some votes =>
    dsimp only
    split_ifs with hreq
    · cases hcp : dictGet fm.checkpoints h with
      | none => exact ⟨hint, hcps, ⟨cp, hheap, hbn, hep, hfin⟩, hjust, hfinal⟩
      | some r =>
        have hr0 : r = 0 := by
          rw [hcps] at hcp
          by_cases h0 : (0 : ℤ) = h
          · simp [dictGet, h0] at hcp
            exact hcp.symm
          · simp [dictGet, h0] at hcp
        subst hr0
        have hcpget : cpGet fm 0 = cp := by
          simp [cpGet, hheap, dictGet]
        dsimp only
        refine ⟨hint, hcps,
          ⟨{ cpGet fm 0 with
              justification := some ⟨votes.map Prod.snd, votes.length, true, now⟩ },
            ?_, ?_, ?_, ?_⟩, rfl, hfinal⟩
        · rw [hheap]
          simp [dictSet]
        · simp [hcpget, hbn]
        · simp [hcpget, hep]
        · simp [hcpget, hfin]
    · exact ⟨hint, hcps, ⟨cp, hheap, hbn, hep, hfin⟩, hjust, hfinal⟩

theorem genesisInv_attempt_finality (fm : FMState) (hi : GenesisInv fm) :
    GenesisInv (fm.attempt_finality).1 := by
  obtain ⟨hint, hcps, ⟨cp, hheap, hbn, hep, hfin⟩, hjust, hfinal⟩ := hi
  have hcpget : cpGet fm 0 = cp := by
    simp [cpGet, hheap, dictGet]
  unfold FMState.attempt_finality
  split_ifs with hpb hffg
  · -- PBFT
    unfold FMState.attempt_pbft_finality
    rw [hjust]
    dsimp only
    cases hv : dictGet fm.block_votes (cpGet fm 0).block_number with
    | none => exact ⟨hint, hcps, ⟨cp, hheap, hbn, hep, hfin⟩, hjust, hfinal⟩
    | some votes =>
      dsimp only
      split_ifs with hreq
      · refine ⟨hint, hcps,
          ⟨{ cpGet fm 0 with finalized := true }, ?_, ?_, ?_, ?_⟩, rfl, rfl⟩
        · rw [hheap]
          simp [dictSet]
        · simp [hcpget, hbn]
        · simp [hcpget, hep]
        · simp
      · exact ⟨hint, hcps, ⟨cp, hheap, hbn, hep, hfin⟩, hjust, hfinal⟩
  · -- Casper FFG: the previous-epoch key is -interval, absent from {0}
    unfold FMState.attempt_casper_ffg_finality
    rw [hjust]
    dsimp only
    have hkey : dictGet fm.checkpoints
        (((cpGet fm 0).epoch - 1) * fm.checkpoint_interval) = none := by
      rw [hcps, hcpget, hep]
      simp [dictGet]
      omega
    rw [hkey]
    exact ⟨hint, hcps, ⟨cp, hheap, hbn, hep, hfin⟩, hjust, hfinal⟩
  · -- LMD
    unfold FMState.attempt_lmd_finality
    exact ⟨hint, hcps, ⟨cp, hheap, hbn, hep, hfin⟩, hjust, hfinal⟩

theorem genesisInv_process_votes (fm : FMState) (bn : ℤ) (now : ℚ)
    (hi : GenesisInv fm) : GenesisInv (fm.process_votes bn now) := by
  unfold FMState.process_votes
  split_ifs with hc hsc
  · exact hi
  · have hi1 : GenesisInv (fm.attempt_checkpoint_justification bn now).1 :=
      genesisInv_attempt_justification fm bn now hi
    dsimp only
    cases hj : (fm.attempt_checkpoint_justification bn now).1.justified_checkpoint with
    | none => exact hi1
    | some jr =>
      cases hf : (fm.attempt_checkpoint_justification bn now).1.finalized_checkpoint with
      | none => exact hi1
      | some fr =>
        dsimp only
        split_ifs with hgt
        · exact genesisInv_attempt_finality _ hi1
        · exact hi1
  · dsimp only
    cases hj : fm.justified_checkpoint with
    | none => exact hi
    | some jr =>
      cases hf : fm.finalized_checkpoint with
      | none => exact hi
      | some fr =>
        dsimp only
        split_ifs with hgt
        · exact genesisInv_attempt_finality _ hi
        · exact hi

theorem genesisInv_record_vote (fm : FMState) (v : FVote) (now : ℚ)
    (hi : GenesisInv fm) : GenesisInv (fm.record_vote v now) := by
  unfold FMState.record_vote
  apply genesisInv_process_votes
  obtain ⟨hint, hcps, hcp, hjust, hfinal⟩ := hi
  exact ⟨hint, hcps, hcp, hjust, hfinal⟩

theorem genesisInv_applyFOp (fm : FMState) (op : FOp) (hi : GenesisInv fm) :
    GenesisInv (applyFOp fm op) := by
  cases op with
  | recordVote v now => exact genesisInv_record_vote fm v now hi
  | attemptJustification h now => exact genesisInv_attempt_justification fm h now hi
  | attemptFinality => exact genesisInv_attempt_finality fm hi

theorem genesisInv_runFOps (fm : FMState) (ops : List FOp) (hi : GenesisInv fm) :
    GenesisInv (runFOps fm ops) := by
  induction ops generalizing fm with
  | nil => exact hi
  | cons op rest ih => exact ih _ (genesisInv_applyFOp fm op hi)

/-- C5: the claim "finalized implies justified" fails already at
initialization, reachable by the empty operation sequence: the genesis
checkpoint is created with `finalized=True` but `justification=None`. -/
theorem genesis_finalized_unjustified_C5 :
    (cpGet (FMState.initialState ["v1"] (67/100) (1/2) 32 "Casper FFG" 0) 0).finalized
        = true
    ∧ (cpGet (FMState.initialState ["v1"] (67/100) (1/2) 32 "Casper FFG" 0) 0).justification
        = none
    ∧ dictGet (FMState.initialState ["v1"] (67/100) (1/2) 32 "Casper FFG" 0).checkpoints 0
        = some 0 := by
  refine ⟨?_, ?_, ?_⟩ <;> simp [FMState.initialState, cpGet, dictGet]

/-- C5 (amended): in every state reachable from initialization (with a
positive checkpoint interval) by `record_vote` / `attempt_justification` /
`attempt_finality`: every checkpoint whose finalized flag is set either
has a justification record or is the genesis checkpoint (which is born
finalized and unjustified); a finalized flag, once set, is never cleared
along the trace; and the finalized checkpoint's height never decreases
(these operations create no checkpoints, so only genesis is ever involved). -/
theorem finality_invariants_C5 (validators : List String) (ft jt : ℚ)
    (interval : ℤ) (gadget : String) (now0 : ℚ) (ops : List FOp) (i j : ℕ)
    (hint : 0 < interval) (_hij : i ≤ j) :
    (∀ p ∈ (runFOps (FMState.initialState validators ft jt interval gadget now0)
        (ops.take j)).cheap,
      p.2.finalized = true → p.2.justification ≠ none ∨ p.2.block_number = 0)
    ∧ (∀ r : CRef,
        (cpGet (runFOps (FMState.initialState validators ft jt interval gadget now0)
            (ops.take i)) r).finalized = true →
        (cpGet (runFOps (FMState.initialState validators ft jt interval gadget now0)
            (ops.take j)) r).finalized = true)
    ∧ (((runFOps (FMState.initialState validators ft jt interval gadget now0)
          (ops.take i)).finalized_checkpoint.map
          (fun fr => (cpGet (runFOps (FMState.initialState validators ft jt interval
            gadget now0) (ops.take i)) fr).block_number)).getD 0
        ≤ ((runFOps (FMState.initialState validators ft jt interval gadget now0)
          (ops.take j)).finalized_checkpoint.map
          (fun fr => (cpGet (runFOps (FMState.initialState validators ft jt interval
            gadget now0) (ops.take j)) fr).block_number)).getD 0) := by
  have hii := genesisInv_runFOps _ (ops.take i)
    (genesisInv_initialState validators ft jt interval gadget now0 hint)
  have hjj := genesisInv_runFOps _ (ops.take j)
    (genesisInv_initialState validators ft jt interval gadget now0 hint)
  obtain ⟨_, _, ⟨cpi, hheapi, hbni, _, hfini⟩, _, hfinali⟩ := hii
  obtain ⟨_, _, ⟨cpj, hheapj, hbnj, _, hfinj⟩, _, hfinalj⟩ := hjj
  refine ⟨?_, ?_, ?_⟩
  · intro p hp _
    rw [hheapj] at hp
    simp only [List.mem_singleton] at hp
    right
    rw [hp]
    exact hbnj
  · intro r hr
    by_cases hr0 : r = 0
    · subst hr0
      simp [cpGet, hheapj, dictGet, hfinj]
    · exfalso
      have : ¬ ((0 : CRef) = r) := fun h => hr0 h.symm
      simp [cpGet, hheapi, dictGet, this] at hr
  · rw [hfinali, hfinalj]
    simp [cpGet, hheapi, hheapj, dictGet, hbni, hbnj]

/-- C5 witness: the amended invariants instantiated at a concrete
configuration and the empty operation sequence. -/
theorem finality_invariants_witness_C5 :
    (∀ p ∈ (runFOps (FMState.initialState ["v1"] (67/100) (1/2) 32 "Casper FFG" 0)
        (List.take 0 ([] : List FOp))).cheap,
      p.2.finalized = true → p.2.justification ≠ none ∨ p.2.block_number = 0)
    ∧ (∀ r : CRef,
        (cpGet (runFOps (FMState.initialState ["v1"] (67/100) (1/2) 32 "Casper FFG" 0)
            (List.take 0 ([] : List FOp))) r).finalized = true →
        (cpGet (runFOps (FMState.initialState ["v1"] (67/100) (1/2) 32 "Casper FFG" 0)
            (List.take 0 ([] : List FOp))) r).finalized = true)
    ∧ (((runFOps (FMState.initialState ["v1"] (67/100) (1/2) 32 "Casper FFG" 0)
          (List.take 0 ([] : List FOp))).finalized_checkpoint.map
          (fun fr => (cpGet (runFOps (FMState.initialState ["v1"] (67/100) (1/2) 32
            "Casper FFG" 0) (List.take 0 ([] : List FOp))) fr).block_number)).getD 0
        ≤ ((runFOps (FMState.initialState ["v1"] (67/100) (1/2) 32 "Casper FFG" 0)
          (List.take 0 ([] : List FOp))).finalized_checkpoint.map
          (fun fr => (cpGet (runFOps (FMState.initialState ["v1"] (67/100) (1/2) 32
            "Casper FFG" 0) (List.take 0 ([] : List FOp))) fr).block_number)).getD 0) :=
  finality_invariants_C5 ["v1"] (67/100) (1/2) 32 "Casper FFG" 0 [] 0 0
    (by norm_num) (le_refl 0)

theorem dictContains_of_dictGet {α β : Type} [DecidableEq α]
    (d : List (α × β)) (k : α) (v : β) (h : dictGet d k = some v) :
    dictContains d k = true := by
  induction d with
  | nil => simp [dictGet] at h
  | cons p t ih =>
    obtain ⟨a, b⟩ := p
    by_cases ha : a = k
    · simp [dictContains, ha]
    · simp [dictGet, ha] at h
      simp [dictContains, ha, ih h]

theorem dictGet_isSome_of_contains {α β : Type} [DecidableEq α]
    (d : List (α × β)) (k : α) (h : dictContains d k = true) :
    ∃ v, dictGet d k = some v := by
  induction d with
  | nil => simp [dictContains] at h
  | cons p t ih =>
    obtain ⟨a, b⟩ := p
    by_cases ha : a = k
    · exact ⟨b, by simp [dictGet, ha]⟩
    · simp [dictContains, ha] at h
      obtain ⟨v, hv⟩ := ih h
      exact ⟨v, by simp [dictGet, ha, hv]⟩

theorem attempt_justification_block_votes (fm : FMState) (h : ℤ) (now : ℚ) :
    (fm.attempt_checkpoint_justification h now).1.block_votes = fm.block_votes := by
  unfold FMState.attempt_checkpoint_justification
  cases dictGet fm.block_votes h with
  | none => rfl
  | some votes =>
    dsimp only
    split_ifs
    · cases dictGet fm.checkpoints h with
      | none => rfl
      | some r => rfl
    · rfl

theorem attempt_pbft_block_votes (fm : FMState) :
    (fm.attempt_pbft_finality).1.block_votes = fm.block_votes := by
  unfold FMState.attempt_pbft_finality
  cases fm.justified_checkpoint with
  | none => rfl
  | some jr =>
    dsimp only
    cases dictGet fm.block_votes (cpGet fm jr).block_number with
    | none => rfl
    | some votes =>
      dsimp only
      split_ifs <;> rfl

theorem attempt_ffg_block_votes (fm : FMState) :
    (fm.attempt_casper_ffg_finality).1.block_votes = fm.block_votes := by
  unfold FMState.attempt_casper_ffg_finality
  cases fm.justified_checkpoint with
  | none => rfl
  | some jr =>
    dsimp only
    cases dictGet fm.checkpoints (((cpGet fm jr).epoch - 1) * fm.checkpoint_interval) with
    | none => rfl
    | some pr =>
      dsimp only
      split_ifs <;> rfl

theorem attempt_finality_block_votes (fm : FMState) :
    (fm.attempt_finality).1.block_votes = fm.block_votes := by
  unfold FMState.attempt_finality
  split_ifs
  · exact attempt_pbft_block_votes fm
  · exact attempt_ffg_block_votes fm
  · rfl

theorem process_votes_block_votes (fm : FMState) (bn : ℤ) (now : ℚ) :
    (fm.process_votes bn now).block_votes = fm.block_votes := by
  unfold FMState.process_votes
  split_ifs with hc hsc
  · rfl
  · dsimp only
    cases hj : (fm.attempt_checkpoint_justification bn now).1.justified_checkpoint with
    | none => exact attempt_justification_block_votes fm bn now
    | some jr =>
      cases hf : (fm.attempt_checkpoint_justification bn now).1.finalized_checkpoint with
      | none => exact attempt_justification_block_votes fm bn now
      | some fr =>
        dsimp only
        split_ifs with hgt
        · rw [attempt_finality_block_votes, attempt_justification_block_votes]
        · exact attempt_justification_block_votes fm bn now
  · dsimp only
    cases hj : fm.justified_checkpoint with
    | none => rfl
    | some jr =>
      cases hf : fm.finalized_checkpoint with
      | none => rfl
      | some fr =>
        dsimp only
        split_ifs with hgt
        · exact attempt_finality_block_votes fm
        · rfl

/-- C8 (amended): given the checkpoint and vote map at height `h`,
`attempt_checkpoint_justification(h)` justifies exactly when the number of
distinct voting validators reaches `int(N*justification_threshold)+1`
(the vote map is keyed by validator id, so a repeated vote from one
validator overwrites and the count is unchanged); and on success the newly
justified checkpoint replaces the currently justified one unconditionally,
with no comparison of heights. -/
theorem attempt_justification_C8 (fm : FMState) (h : ℤ) (now : ℚ) :
    ((fm.attempt_checkpoint_justification h now).2 ≠ none
      ↔ (∃ votes, dictGet fm.block_votes h = some votes
          ∧ (votes.length : ℤ)
              ≥ pyInt ((fm.validators.length : ℚ) * fm.justification_threshold) + 1)
        ∧ dictContains fm.checkpoints h = true)
    ∧ (∀ r, (fm.attempt_checkpoint_justification h now).2 = some r →
        (fm.attempt_checkpoint_justification h now).1.justified_checkpoint = some r
        ∧ dictGet fm.checkpoints h = some r)
    ∧ (∀ (v : FVote) (votes : List (String × FVote)),
        dictGet fm.block_votes v.block_number = some votes →
        dictContains votes v.validator_id = true →
        dictGet (fm.record_vote v now).block_votes v.block_number
            = some (dictSet votes v.validator_id v)
        ∧ (dictSet votes v.validator_id v).length = votes.length) := by
  refine ⟨?_, ?_, ?_⟩
  · unfold FMState.attempt_checkpoint_justification
    cases hv : dictGet fm.block_votes h with
    | none =>
      dsimp only
      constructor
      · intro hfalse
        exact absurd rfl hfalse
      · rintro ⟨⟨votes, hvs, _⟩, _⟩
        exact absurd hvs (by simp)
    | some votes =>
      dsimp only
      split_ifs with hreq
      · cases hcp : dictGet fm.checkpoints h with
        | none =>
          constructor
          · intro hfalse
            exact absurd rfl hfalse
          · rintro ⟨_, hcont⟩
            obtain ⟨r, hr⟩ := dictGet_isSome_of_contains _ _ hcont
            rw [hcp] at hr
            exact absurd hr (by simp)
        | some r =>
          constructor
          · intro _
            refine ⟨⟨votes, rfl, hreq⟩, ?_⟩
            exact dictContains_of_dictGet _ _ _ hcp
          · intro _
            simp
      · constructor
        · intro hfalse
          exact absurd rfl hfalse
        · rintro ⟨⟨votes2, hvs, hlen⟩, _⟩
          injection hvs with hvv
          subst hvv
          exact absurd hlen hreq
  · intro r hr
    unfold FMState.attempt_checkpoint_justification at hr ⊢
    cases hv : dictGet fm.block_votes h with
    | none =>
      rw [hv] at hr
      dsimp only at hr
      exact absurd hr (by simp)
    | some votes =>
      rw [hv] at hr
      dsimp only at hr
      split_ifs at hr with hreq
      · cases hcp : dictGet fm.checkpoints h with
        | none =>
          rw [hcp] at hr
          dsimp only at hr
          exact absurd hr (by simp)
        | some r0 =>
          rw [hcp] at hr
          dsimp only at hr
          injection hr with hr0
          subst hr0
          dsimp only
          rw [if_pos hreq]
          exact ⟨rfl, rfl⟩
  · intro v votes hv hcont
    unfold FMState.record_vote
    rw [process_votes_block_votes]
    have hbc : dictContains fm.block_votes v.block_number = true :=
      dictContains_of_dictGet _ _ _ hv
    simp only [hbc, if_true, hv, Option.getD_some]
    exact ⟨dictGet_dictSet_self _ _ _, dictSet_length_mem _ _ _ hcont⟩

/-- C8: the claim that a newly justified checkpoint supersedes the current
one only at a strictly greater height is false: the code assigns
`self.justified_checkpoint = checkpoint` unconditionally.  In the scenario
state the justified checkpoint sits at height 64; justifying height 32
(its votes meet the threshold) replaces it with the height-32 checkpoint. -/
theorem justified_replacement_counterexample_C8 :
    (cpGet fmW ((fmW.justified_checkpoint).getD 0)).block_number = 64
    ∧ (fmW.attempt_checkpoint_justification 32 7).1.justified_checkpoint = some 1
    ∧ (cpGet (fmW.attempt_checkpoint_justification 32 7).1 1).block_number = 32 := by
  refine ⟨?_, ?_, ?_⟩ <;>
    norm_num [fmW, cpGet, dictGet, dictSet, cp32W, cp64W, cpGenesisW, voteAt,
      FMState.attempt_checkpoint_justification, pyInt]

/-- C8 witness: the amended characterization applied to the scenario
state at height 32. -/
theorem attempt_justification_witness_C8 :
    (fmW.attempt_checkpoint_justification 32 7).1.justified_checkpoint = some 1
    ∧ dictGet fmW.checkpoints 32 = some 1 :=
  (attempt_justification_C8 fmW 32 7).2.1 1
    (by norm_num [fmW, cpGet, dictGet, dictSet, cp32W, cp64W, cpGenesisW, voteAt,
      FMState.attempt_checkpoint_justification, pyInt])

/-! ## Block producer (`src/chainforgeledger/core/block_producer.py`,
`src/chainforgeledger/core/blockchain.py`,
`src/chainforgeledger/core/execution_pipeline.py`)

The mempool's transactions are modelled by the fields the producer reads:
`validate()['isValid']` as a boolean, the priority key
(`gas_price * gas_limit`, timestamp) and the external
`sys.getsizeof(str(tx.to_dict()))` as a `size` field.  The block-level
`calculate_block_size` is likewise an abstract size function.  The
blockchain's previous-block lookup is `get_block_by_index`; none of the
default pipeline plugins define `validate_block`, so the pipeline checks
are the structural ones plus per-transaction validity. -/

/-- A producer-view transaction. -/
structure PTx where
  isValid : Bool
  gas_price : ℚ
  gas_limit : ℤ
  timestamp : ℚ
  size : ℕ
deriving DecidableEq, Repr

/-- Symbolic block hash: `zeros` is `'0'*64`, `node` the digest of the
serialized header fields. -/
inductive BHash where
  | zeros : BHash
  | node : ℤ → BHash → List PTx → ℚ → String → ℤ → BHash
deriving DecidableEq, Repr

/-- A produced block. -/
structure PBlock where
  index : ℤ
  previous_hash : BHash
  transactions : List PTx
  timestamp : ℚ
  validator : String
  gas_limit : ℤ
  hash : BHash
deriving DecidableEq, Repr

/-- `Block.calculate_hash` over the header fields (the stored hash is not
part of the hashed data). -/
def PBlock.calculate_hash (b : PBlock) : BHash :=
  BHash.node b.index b.previous_hash b.transactions b.timestamp b.validator b.gas_limit

/-- `Block.validate_block`: stored hash equals the recomputed hash. -/
def PBlock.validate_block (b : PBlock) : Bool :=
  b.calculate_hash = b.hash

/-- `Blockchain.is_valid_block` against the last block of the chain (the
chain always holds at least the genesis block; an empty chain is treated
as invalid, where Python would raise). -/
def is_valid_block (chain : List PBlock) (block : PBlock) : Bool :=
  match chain.getLast? with
  | none => false
  | some previous_block =>
    if block.index ≠ previous_block.index + 1 then false
    else if block.previous_hash ≠ previous_block.hash then false
    else block.validate_block

/-- `Blockchain.add_block`: append when valid, `none` models the raised
`ValueError("Invalid block")`. -/
def add_block (chain : List PBlock) (block : PBlock) : Option (List PBlock) :=
  if is_valid_block chain block then some (chain ++ [block]) else none

/-- `Blockchain.get_block_by_index`. -/
def get_block_by_index (chain : List PBlock) (index : ℤ) : Option PBlock :=
  if index < 0 ∨ index ≥ (chain.length : ℤ) then none
  else chain.get? index.toNat

/-- `ProductionOptions` (fields the modelled paths read). -/
structure PProductionOptions where
  max_block_size : ℕ
  max_transactions_per_block : ℕ
  gas_limit : ℤ
  prioritize_high_fee : Bool
deriving DecidableEq, Repr

/-- The strict "comes before" order of the fee-priority sort: descending
lexicographically in (`gas_price * gas_limit`, `-timestamp`). -/
def txPrecedes (a b : PTx) : Bool :=
  (a.gas_price * (a.gas_limit : ℚ) > b.gas_price * (b.gas_limit : ℚ))
  ∨ (a.gas_price * (a.gas_limit : ℚ) = b.gas_price * (b.gas_limit : ℚ)
      ∧ -a.timestamp > -b.timestamp)

/-- Stable insertion for the fee-priority sort: an element is placed
before the first element it strictly precedes, so key-ties keep their
original order (Python's sort is stable). -/
def insertByKey (x : PTx) : List PTx → List PTx
  | [] => [x]
  | y :: ys => if txPrecedes x y then x :: y :: ys else y :: insertByKey x ys

/-- The greedy fill loop of `select_transactions`: the count cap is
checked before the size cap, and both `break`. -/
def selectLoop (maxCount maxSize : ℕ) :
    List PTx → ℕ → ℕ → List PTx
  | [], _, _ => []
  | tx :: rest, selCount, totalSize =>
    if selCount ≥ maxCount then []
    else if totalSize + tx.size > maxSize then []
    else tx :: selectLoop maxCount maxSize rest (selCount + 1) (totalSize + tx.size)

/-- `BlockProducer.select_transactions`: filter by validity, optionally
sort by fee priority (stable, descending), then fill under the caps. -/
def select_transactions (mempool : List PTx) (options : PProductionOptions) :
    List PTx :=
  let valid_transactions := mempool.filter (fun tx => tx.isValid)
  let sorted :=
    if options.prioritize_high_fee then valid_transactions.foldr insertByKey []
    else valid_transactions
  selectLoop options.max_transactions_per_block options.max_block_size sorted 0 0

/-- `BlockProducer.create_new_block` (the validator name comes from the
consensus collaborator; `time.time()` is the explicit `now`).  The `Block`
constructor computes the stored hash from the header fields. -/
def create_new_block (chain : List PBlock) (transactions : List PTx)
    (options : PProductionOptions) (validatorName : String) (now : ℚ) : PBlock :=
  let index := match chain.getLast? with
    | some previous_block => previous_block.index + 1
    | none => 0
  let previous_hash := match chain.getLast? with
    | some previous_block => previous_block.hash
    | none => BHash.zeros
  let data : PBlock :=
    ⟨index, previous_hash, transactions, now, validatorName, options.gas_limit,
      BHash.zeros⟩
  { data with hash := data.calculate_hash }

/-- `ExecutionPipeline.validate_block` for a producer block: the
structural checks that can fire in the model plus per-transaction
validity (the default plugins define no `validate_block`). -/
def pipeline_validate_block (block : PBlock) : List String :=
  (if block.index < 0 then ["Invalid block index"] else [])
  ++ block.transactions.filterMap
      (fun tx => if tx.isValid then none else some "Invalid transaction")

/-- `BlockProducer.validate_block`: structural checks, the
previous-block linkage check, the size and count caps, then the
pipeline's errors. -/
def producer_validate_block (chain : List PBlock) (block : PBlock)
    (blockSize : PBlock → ℕ) (max_block_size max_transactions_per_block : ℕ) :
    List String :=
  (if block.index < 0 then ["Invalid block index"] else [])
  ++ (if block.index > 0 then
        match get_block_by_index chain (block.index - 1) with
        | none => ["Invalid previous block reference"]
        | some previous_block =>
          if previous_block.hash ≠ block.previous_hash then
            ["Invalid previous block reference"]
          else []
      else [])
  ++ (if blockSize block > max_block_size then ["Block size exceeds limit"] else [])
  ++ (if block.transactions.length > max_transactions_per_block then
        ["Transaction count exceeds limit"] else [])
  ++ pipeline_validate_block block

/-- A `ProductionResult` (the fields the claim is about). -/
structure PProductionResult where
  success : Bool
  block : Option PBlock
  transactions_count : ℕ
deriving DecidableEq, Repr

/-- `BlockProducer.produce_block`: select, create, validate, and only on a
clean validation attempt the commit; every raised failure (validation
errors, or `add_block` rejecting the block) is caught into a
`success=False` result. -/
def produce_block (chain : List PBlock) (mempool : List PTx)
    (options : PProductionOptions) (validatorName : String) (now : ℚ)
    (blockSize : PBlock → ℕ) (max_block_size max_transactions_per_block : ℕ) :
    List PBlock × PProductionResult :=
  let transactions := select_transactions mempool options
  let block := create_new_block chain transactions options validatorName now
  let errors := producer_validate_block chain block blockSize
    max_block_size max_transactions_per_block
  if errors ≠ [] then (chain, ⟨false, none, 0⟩)
  else
    match add_block chain block with
    | none => (chain, ⟨false, none, 0⟩)
    | some chain2 => (chain2, ⟨true, some block, transactions.length⟩)

/-- C6: `produce_block` commits a block only after the full structural and
pipeline validation passes and `add_block`'s own check accepts it; and it
aborts atomically: whenever the returned result has `success = false`, the
chain is exactly as it was before the call. -/
theorem produce_block_atomic_C6 (chain : List PBlock) (mempool : List PTx)
    (options : PProductionOptions) (validatorName : String) (now : ℚ)
    (blockSize : PBlock → ℕ) (max_block_size max_transactions_per_block : ℕ) :
    ((produce_block chain mempool options validatorName now blockSize
        max_block_size max_transactions_per_block).2.success = false →
      (produce_block chain mempool options validatorName now blockSize
        max_block_size max_transactions_per_block).1 = chain)
    ∧ ((produce_block chain mempool options validatorName now blockSize
        max_block_size max_transactions_per_block).2.success = true →
      ∃ b, (produce_block chain mempool options validatorName now blockSize
          max_block_size max_transactions_per_block).2.block = some b
        ∧ (produce_block chain mempool options validatorName now blockSize
            max_block_size max_transactions_per_block).1 = chain ++ [b]
        ∧ producer_validate_block chain b blockSize
            max_block_size max_transactions_per_block = []
        ∧ is_valid_block chain b = true) := by
  unfold produce_block
  dsimp only
  split_ifs with herr
  · exact ⟨fun _ => rfl, fun hs => by simp at hs⟩
  · cases hadd : add_block chain
        (create_new_block chain (select_transactions mempool options) options
          validatorName now) with
    | none => exact ⟨fun _ => rfl, fun hs => by simp at hs⟩
    | some chain2 =>
      refine ⟨fun hs => by simp at hs, fun _ => ?_⟩
      refine ⟨create_new_block chain (select_transactions mempool options) options
        validatorName now, rfl, ?_, ?_, ?_⟩
      · unfold add_block at hadd
        split_ifs at hadd with hv
        injection hadd with h2
        exact h2.symm
      · simpa using herr
      · unfold add_block at hadd
        split_ifs at hadd with hv
        exact hv

/-- C6 witness: on an empty chain `add_block` rejects the candidate (no
previous block), so production fails with `success=False` and the chain is
unchanged. -/
theorem produce_block_atomic_witness_C6 :
    (produce_block [] [] ⟨1000000, 1000, 10000000, true⟩ "v" 5 (fun _ => 100)
        1000000 1000).2.success = false
    ∧ (produce_block [] [] ⟨1000000, 1000, 10000000, true⟩ "v" 5 (fun _ => 100)
        1000000 1000).1 = [] :=
  ⟨by
    simp +decide [produce_block, select_transactions, selectLoop, create_new_block,
      producer_validate_block, pipeline_validate_block, get_block_by_index,
      add_block, is_valid_block, PBlock.calculate_hash, PBlock.validate_block],
  (produce_block_atomic_C6 [] [] ⟨1000000, 1000, 10000000, true⟩ "v" 5 (fun _ => 100)
      1000000 1000).1
    (by
      simp +decide [produce_block, select_transactions, selectLoop, create_new_block,
        producer_validate_block, pipeline_validate_block, get_block_by_index,
        add_block, is_valid_block, PBlock.calculate_hash, PBlock.validate_block])⟩
